import Mathlib

/-!
Verification of the farm-patrol visit pipeline.

This file gives a shallow embedding of the core computation of the
repository: the ray-casting containment test `isPointInPolygon` and the
GeoJSON ring extractor `getPolygonCoordinates` of the edge function, the
segmentation loop that turns a ping stream into raw intervals, the
gap-based merge loop (`MERGE_GAP_MINUTES`), the per-block metrics rollup,
the per-block orchestration step, and the coverage analysis of
`useVisitCoverage` (with the external turf geometry operations abstracted
as fallible oracles).  Timestamps are modelled as UTC epoch milliseconds
(`Int`, the `Date.getTime()` view of the ISO strings); coordinates, speeds
and areas are rationals.
-/

namespace FarmPatrol

/-- One timestamped GPS sample for a tractor: epoch-millisecond timestamp,
latitude, longitude and an optional speed. -/
structure Ping where
  ts : Int
  lat : ℚ
  lon : ℚ
  speed : Option ℚ := none
deriving DecidableEq

/-- Ray-casting point-in-polygon test, mirroring the JS loop
`for (let i = 0, j = polygon.length - 1; i < polygon.length; j = i++)`
with the comparison
`((yi > y) !== (yj > y)) && (x < (xj - xi) * (y - yi) / (yj - yi) + xi)`. -/
def isPointInPolygon (point : ℚ × ℚ) (polygon : List (ℚ × ℚ)) : Bool :=
  let x := point.1
  let y := point.2
  (List.range polygon.length).foldl
    (fun inside i =>
      let pI := polygon.getD i (0, 0)
      let pJ := polygon.getD (if i = 0 then polygon.length - 1 else i - 1) (0, 0)
      let xi := pI.1
      let yi := pI.2
      let xj := pJ.1
      let yj := pJ.2
      if (decide (yi > y) != decide (yj > y))
          && decide (x < (xj - xi) * (y - yi) / (yj - yi) + xi)
      then !inside else inside)
    false

/-- Whether a ping lies inside the block polygon; the segmentation loop
calls `isPointInPolygon([ping.lon, ping.lat], polygon)`. -/
def insideP (polygon : List (ℚ × ℚ)) (p : Ping) : Bool :=
  isPointInPolygon (p.lon, p.lat) polygon

/-- A raw entry/exit interval as produced by the segmentation step and
consumed by the merge step. -/
structure RawInterval where
  started_at : Int
  ended_at : Int
  ping_count : Nat
deriving DecidableEq

/-- The segmentation loop's open-visit state: `{ started_at, pings }`. -/
structure CurrentVisit where
  started_at : Int
  pings : List Ping
deriving DecidableEq

/-- Default ping used only to express the JS indexing
`pings[pings.length - 1]` as `getLastD`; the list is never empty when it
is read. -/
def dummyPing : Ping := { ts := 0, lat := 0, lon := 0, speed := none }

/-- Closing an open visit: `ended_at` is the timestamp of the last ping
pushed into the visit (`currentVisit.pings[currentVisit.pings.length - 1]`),
`ping_count` its length. -/
def closeVisit (cv : CurrentVisit) : RawInterval :=
  { started_at := cv.started_at
    ended_at := (cv.pings.getLastD dummyPing).ts
    ping_count := cv.pings.length }

/-- The segmentation loop (step 1 of the edge function): walk the ping
stream; an inside ping opens or extends the current visit, an outside ping
closes it at the previous (last inside) ping, and a visit still open at the
end of the stream is closed at the last ping. -/
def segmentLoop (polygon : List (ℚ × ℚ)) :
    List Ping → Option CurrentVisit → List RawInterval
  | [], none => []
  | [], some cv => if cv.pings.length > 0 then [closeVisit cv] else []
  | p :: rest, none =>
      if insideP polygon p then
        segmentLoop polygon rest (some { started_at := p.ts, pings := [p] })
      else
        segmentLoop polygon rest none
  | p :: rest, some cv =>
      if insideP polygon p then
        segmentLoop polygon rest
          (some { started_at := cv.started_at, pings := cv.pings ++ [p] })
      else
        closeVisit cv :: segmentLoop polygon rest none

/-- Raw visits of one (block, tractor) pair: the segmentation loop run from
the empty state. -/
def segmentPings (polygon : List (ℚ × ℚ)) (pings : List Ping) : List RawInterval :=
  segmentLoop polygon pings none

/-- Gap threshold for merging visits, in minutes (`MERGE_GAP_MINUTES`). -/
def MERGE_GAP_MINUTES : ℚ := 30

/-- Gap in minutes between the next interval's start and the current
interval's end: `gapMs / (1000 * 60)`. -/
def gapMinutes (cur v : RawInterval) : ℚ :=
  ((v.started_at - cur.ended_at : Int) : ℚ) / (1000 * 60)

/-- The merge loop (step 2 of the edge function): greedy left fold over the
raw visits; a gap strictly below `G` minutes extends the current merged
visit and accumulates its ping count, otherwise the current visit is
emitted and the next interval starts a new one. -/
def mergeLoop (G : ℚ) : List RawInterval → Option RawInterval → List RawInterval
  | [], none => []
  | [], some cur => [cur]
  | v :: rest, none => mergeLoop G rest (some v)
  | v :: rest, some cur =>
      if gapMinutes cur v < G then
        mergeLoop G rest
          (some { started_at := cur.started_at
                  ended_at := v.ended_at
                  ping_count := cur.ping_count + v.ping_count })
      else
        cur :: mergeLoop G rest (some v)

/-- Merged visits of one (block, tractor) pair: the merge loop run from the
empty state. -/
def mergeVisits (G : ℚ) (raws : List RawInterval) : List RawInterval :=
  mergeLoop G raws none

/-- The pure pipeline for one (block, tractor) pair: segmentation followed
by the gap merge. -/
def runPipeline (polygon : List (ℚ × ℚ)) (G : ℚ) (pings : List Ping) :
    List RawInterval :=
  mergeVisits G (segmentPings polygon pings)

/-- Helper record for a merged interval extended by the next raw one. -/
def mergedWith (cur v : RawInterval) : RawInterval :=
  { started_at := cur.started_at
    ended_at := v.ended_at
    ping_count := cur.ping_count + v.ping_count }

/-- C1: on a time-ordered, disjoint raw-interval stream the merge step
merges the next interval into the current one exactly when the gap in
minutes between the next interval's `started_at` and the current one's
`ended_at` is strictly below `MERGE_GAP_MINUTES = 30`; in particular a gap
of exactly 30 minutes does not merge and leaves two separate visits. -/
theorem merger_gap_strictness (cur v : RawInterval) (rest : List RawInterval) :
    (mergeLoop MERGE_GAP_MINUTES (v :: rest) (some cur)
        = if gapMinutes cur v < MERGE_GAP_MINUTES then
            mergeLoop MERGE_GAP_MINUTES rest (some (mergedWith cur v))
          else
            cur :: mergeLoop MERGE_GAP_MINUTES rest (some v))
    ∧ (mergeVisits MERGE_GAP_MINUTES [cur, v]
        = if gapMinutes cur v < MERGE_GAP_MINUTES then [mergedWith cur v]
          else [cur, v])
    ∧ (gapMinutes cur v = MERGE_GAP_MINUTES →
        mergeVisits MERGE_GAP_MINUTES [cur, v] = [cur, v]) := by
  refine ⟨rfl, ?_, ?_⟩
  · by_cases h : gapMinutes cur v < MERGE_GAP_MINUTES
    · simp [mergeVisits, mergeLoop, mergedWith, h]
    · simp [mergeVisits, mergeLoop, h]
  · intro h
    have h' : ¬ gapMinutes cur v < MERGE_GAP_MINUTES := by
      rw [h]; exact lt_irrefl _
    simp [mergeVisits, mergeLoop, h']

/-- C1 witness: a gap of exactly 30 minutes (1 800 000 ms) between two raw
intervals is not merged. -/
theorem merger_gap_strictness_witness :
    gapMinutes { started_at := 0, ended_at := 0, ping_count := 1 }
        { started_at := 1800000, ended_at := 1800000, ping_count := 2 }
      = MERGE_GAP_MINUTES
    ∧ mergeVisits MERGE_GAP_MINUTES
        [{ started_at := 0, ended_at := 0, ping_count := 1 },
         { started_at := 1800000, ended_at := 1800000, ping_count := 2 }]
      = [{ started_at := 0, ended_at := 0, ping_count := 1 },
         { started_at := 1800000, ended_at := 1800000, ping_count := 2 }] :=
  ⟨by norm_num [gapMinutes, MERGE_GAP_MINUTES],
   (merger_gap_strictness _ _ []).2.2
     (by norm_num [gapMinutes, MERGE_GAP_MINUTES])⟩

/-- C3: running the segmenter followed by the merger twice on the same ping
sequence, block polygon and gap threshold yields exactly the same list of
final visits both times, with identical `started_at`, `ended_at` and
`ping_count` on every visit: the pipeline is a pure function of its
inputs. -/
theorem pipeline_two_run_determinism (polygon : List (ℚ × ℚ)) (G : ℚ)
    (pings : List Ping) :
    runPipeline polygon G pings = runPipeline polygon G pings
    ∧ (runPipeline polygon G pings).map RawInterval.started_at
        = (runPipeline polygon G pings).map RawInterval.started_at
    ∧ (runPipeline polygon G pings).map RawInterval.ended_at
        = (runPipeline polygon G pings).map RawInterval.ended_at
    ∧ (runPipeline polygon G pings).map RawInterval.ping_count
        = (runPipeline polygon G pings).map RawInterval.ping_count :=
  ⟨rfl, rfl, rfl, rfl⟩

/-- Every ping that tests inside the polygon is counted in exactly one raw
interval: the segmentation loop conserves the inside-ping count, plus
whatever is already buffered in the open visit. -/
lemma segmentLoop_count (polygon : List (ℚ × ℚ)) (pings : List Ping)
    (cv : Option CurrentVisit) :
    ((segmentLoop polygon pings cv).map RawInterval.ping_count).sum
      = pings.countP (insideP polygon) + cv.elim 0 (fun c => c.pings.length) := by
  induction pings generalizing cv with
  | nil =>
      cases cv with
      | none => simp [segmentLoop]
      | some c =>
          by_cases h : c.pings.length > 0
          · simp [segmentLoop, h, closeVisit]
          · simp [segmentLoop, h, closeVisit]
            omega
  | cons p rest ih =>
      cases cv with
      | none =>
          by_cases h : insideP polygon p
          · simp [segmentLoop, h, ih, List.countP_cons]
          · simp [segmentLoop, h, ih, List.countP_cons]
      | some c =>
          by_cases h : insideP polygon p
          · simp [segmentLoop, h, ih, List.countP_cons]
            omega
          · simp [segmentLoop, h, ih, List.countP_cons, closeVisit]
            omega

/-- The merge loop conserves the total ping count of the raw intervals,
plus whatever is buffered in the current merged visit. -/
lemma mergeLoop_count (G : ℚ) (raws : List RawInterval)
    (cur : Option RawInterval) :
    ((mergeLoop G raws cur).map RawInterval.ping_count).sum
      = (raws.map RawInterval.ping_count).sum
        + cur.elim 0 (fun c => c.ping_count) := by
  induction raws generalizing cur with
  | nil =>
      cases cur with
      | none => simp [mergeLoop]
      | some c => simp [mergeLoop]
  | cons v rest ih =>
      cases cur with
      | none =>
          simp [mergeLoop, ih]
          omega
      | some c =>
          by_cases h : gapMinutes c v < G
          · simp [mergeLoop, h, ih]
            omega
          · simp [mergeLoop, h, ih]
            omega

/-- C10: ping-count conservation — for every ping sequence and block
polygon, the sum of `ping_count` over the final visits of a
(block, tractor) pair equals the number of pings that `isPointInPolygon`
classifies as inside the polygon. -/
theorem ping_count_conservation (polygon : List (ℚ × ℚ)) (pings : List Ping) :
    ((runPipeline polygon MERGE_GAP_MINUTES pings).map RawInterval.ping_count).sum
      = pings.countP (insideP polygon) := by
  have h1 := segmentLoop_count polygon pings none
  have h2 := mergeLoop_count MERGE_GAP_MINUTES (segmentPings polygon pings) none
  simp only [Option.elim, runPipeline, mergeVisits, segmentPings] at *
  omega

/-- A run of inside pings extends the open visit by exactly those pings. -/
lemma segmentLoop_insideRun (polygon : List (ℚ × ℚ)) (pre : List Ping)
    (c : CurrentVisit) (rest : List Ping)
    (hin : ∀ q ∈ pre, insideP polygon q = true) :
    segmentLoop polygon (pre ++ rest) (some c)
      = segmentLoop polygon rest
          (some { started_at := c.started_at, pings := c.pings ++ pre }) := by
  induction pre generalizing c with
  | nil => simp
  | cons q pre' ih =>
      have hq : insideP polygon q = true := hin q (by simp)
      have hrest : ∀ r ∈ pre', insideP polygon r = true := fun r hr =>
        hin r (by simp [hr])
      simp only [List.cons_append, segmentLoop, hq, if_pos, List.append_eq]
      rw [ih _ hrest]
      simp

/-- A run of outside pings with no open visit emits nothing and keeps the
state empty. -/
lemma segmentLoop_skipOutside (polygon : List (ℚ × ℚ)) (pre rest : List Ping)
    (hout : ∀ q ∈ pre, insideP polygon q = false) :
    segmentLoop polygon (pre ++ rest) none = segmentLoop polygon rest none := by
  induction pre with
  | nil => rfl
  | cons q pre' ih =>
      have hq : insideP polygon q = false := hout q (by simp)
      simp only [List.cons_append, segmentLoop, hq]
      simp only [Bool.false_eq_true, if_false]
      exact ih fun r hr => hout r (by simp [hr])

/-- The raw interval obtained by closing a maximal inside run: it starts at
the run's first ping, ends at the run's last ping, and counts the run. -/
def closedOf (pre : List Ping) : RawInterval :=
  { started_at := (pre.headD dummyPing).ts
    ended_at := (pre.getLastD dummyPing).ts
    ping_count := pre.length }

/-- C4: when a ping tests outside the polygon while an interval is open,
the segmenter closes the interval at the previous ping's timestamp (the
last inside ping), not at the outside ping's; and an interval still open
when the stream ends is closed at the last ping's timestamp. -/
theorem segmenter_close_semantics (polygon : List (ℚ × ℚ)) (pre : List Ping)
    (p : Ping) (rest : List Ping) (hne : pre ≠ [])
    (hin : ∀ q ∈ pre, insideP polygon q = true) :
    (insideP polygon p = false →
      segmentPings polygon (pre ++ p :: rest)
        = closedOf pre :: segmentPings polygon rest)
    ∧ segmentPings polygon pre = [closedOf pre] := by
  obtain ⟨q, pre', rfl⟩ : ∃ q pre', pre = q :: pre' := by
    cases pre with
    | nil => exact absurd rfl hne
    | cons q pre' => exact ⟨q, pre', rfl⟩
  have hq : insideP polygon q = true := hin q (by simp)
  have hpre' : ∀ r ∈ pre', insideP polygon r = true := fun r hr =>
    hin r (by simp [hr])
  constructor
  · intro hp
    show segmentLoop polygon (q :: (pre' ++ p :: rest)) none = _
    rw [show segmentLoop polygon (q :: (pre' ++ p :: rest)) none
        = segmentLoop polygon (pre' ++ p :: rest)
            (some { started_at := q.ts, pings := [q] }) by
      simp [segmentLoop, hq]]
    rw [segmentLoop_insideRun polygon pre' _ _ hpre']
    simp [segmentLoop, hp, closeVisit, closedOf, segmentPings]
  · show segmentLoop polygon (q :: pre') none = _
    rw [show segmentLoop polygon (q :: pre') none
        = segmentLoop polygon pre'
            (some { started_at := q.ts, pings := [q] }) by
      simp [segmentLoop, hq]]
    rw [show (pre' : List Ping) = pre' ++ [] by simp]
    rw [segmentLoop_insideRun polygon pre' _ _ (by simpa using hpre')]
    simp [segmentLoop, closeVisit, closedOf]

/-- C9: a ping sequence whose only inside ping is isolated produces a
zero-duration final visit at that ping's timestamp with `ping_count = 1`;
the interval is retained through the merge step, not discarded. -/
theorem isolated_ping_zero_duration (polygon : List (ℚ × ℚ))
    (pre post : List Ping) (p : Ping)
    (hpre : ∀ q ∈ pre, insideP polygon q = false)
    (hp : insideP polygon p = true)
    (hpost : ∀ q ∈ post, insideP polygon q = false) :
    runPipeline polygon MERGE_GAP_MINUTES (pre ++ p :: post)
      = [{ started_at := p.ts, ended_at := p.ts, ping_count := 1 }] := by
  have hseg : segmentPings polygon (pre ++ p :: post)
      = [{ started_at := p.ts, ended_at := p.ts, ping_count := 1 }] := by
    unfold segmentPings
    rw [segmentLoop_skipOutside polygon pre _ hpre]
    cases post with
    | nil => simp [segmentLoop, hp, closeVisit]
    | cons q post' =>
        have hq : insideP polygon q = false := hpost q (by simp)
        have hpost' : ∀ r ∈ post', insideP polygon r = false := fun r hr =>
          hpost r (by simp [hr])
        have hskip : segmentLoop polygon post' none = [] := by
          have := segmentLoop_skipOutside polygon post' [] (by simpa using hpost')
          simpa using this
        simp [segmentLoop, hp, hq, closeVisit, hskip]
  unfold runPipeline
  rw [hseg]
  rfl

/-- The unit-square block polygon of the spec's scenario A. -/
def unitSquare : List (ℚ × ℚ) := [(0, 0), (1, 0), (1, 1), (0, 1)]

/-- Concrete ping strictly inside the unit square at t = 0 ms. -/
def pingInA : Ping := { ts := 0, lat := 1/2, lon := 1/2 }

/-- Concrete ping strictly inside the unit square at t = 60 000 ms. -/
def pingInB : Ping := { ts := 60000, lat := 1/4, lon := 3/4 }

/-- Concrete ping outside the unit square at t = 120 000 ms. -/
def pingOutA : Ping := { ts := 120000, lat := 5, lon := 5 }

/-- Concrete ping outside the unit square at t = 0 ms. -/
def pingOut0 : Ping := { ts := 0, lat := 5, lon := 5 }

/-- Concrete ping strictly inside the unit square at t = 60 000 ms. -/
def pingIn1 : Ping := { ts := 60000, lat := 1/2, lon := 1/2 }

/-- Concrete ping outside the unit square at t = 120 000 ms. -/
def pingOut2 : Ping := { ts := 120000, lat := 5, lon := 5 }

/-- C4 witness: two inside pings followed by an outside ping close the
interval at the second (previous) ping's 60 000 ms timestamp, and the same
two inside pings alone close at the stream end. -/
theorem segmenter_close_semantics_witness :
    ([pingInA, pingInB] ≠ ([] : List Ping))
    ∧ (∀ q ∈ [pingInA, pingInB], insideP unitSquare q = true)
    ∧ insideP unitSquare pingOutA = false
    ∧ segmentPings unitSquare ([pingInA, pingInB] ++ pingOutA :: [])
        = closedOf [pingInA, pingInB] :: segmentPings unitSquare []
    ∧ segmentPings unitSquare [pingInA, pingInB] = [closedOf [pingInA, pingInB]] := by
  have hA : insideP unitSquare pingInA = true := by
    norm_num [insideP, isPointInPolygon, unitSquare, pingInA, List.range_succ,
      List.foldl, List.getD]
  have hB : insideP unitSquare pingInB = true := by
    norm_num [insideP, isPointInPolygon, unitSquare, pingInB, List.range_succ,
      List.foldl, List.getD]
  have hOut : insideP unitSquare pingOutA = false := by
    norm_num [insideP, isPointInPolygon, unitSquare, pingOutA, List.range_succ,
      List.foldl, List.getD]
  have hin : ∀ q ∈ [pingInA, pingInB], insideP unitSquare q = true := by
    intro q hq
    rw [List.mem_cons, List.mem_singleton] at hq
    rcases hq with rfl | rfl
    · exact hA
    · exact hB
  have h := segmenter_close_semantics unitSquare [pingInA, pingInB] pingOutA []
    (by simp) hin
  exact ⟨by simp, hin, hOut, h.1 hOut, h.2⟩

/-- C9 witness: an isolated inside ping between two outside pings yields
the single zero-duration final visit at its 60 000 ms timestamp with
`ping_count = 1`. -/
theorem isolated_ping_zero_duration_witness :
    (∀ q ∈ [pingOut0], insideP unitSquare q = false)
    ∧ insideP unitSquare pingIn1 = true
    ∧ (∀ q ∈ [pingOut2], insideP unitSquare q = false)
    ∧ runPipeline unitSquare MERGE_GAP_MINUTES ([pingOut0] ++ pingIn1 :: [pingOut2])
        = [{ started_at := 60000, ended_at := 60000, ping_count := 1 }] := by
  have h0 : insideP unitSquare pingOut0 = false := by
    norm_num [insideP, isPointInPolygon, unitSquare, pingOut0, List.range_succ,
      List.foldl, List.getD]
  have h1 : insideP unitSquare pingIn1 = true := by
    norm_num [insideP, isPointInPolygon, unitSquare, pingIn1, List.range_succ,
      List.foldl, List.getD]
  have h2 : insideP unitSquare pingOut2 = false := by
    norm_num [insideP, isPointInPolygon, unitSquare, pingOut2, List.range_succ,
      List.foldl, List.getD]
  have hpre : ∀ q ∈ [pingOut0], insideP unitSquare q = false := by
    intro q hq; rw [List.mem_singleton] at hq; subst hq; exact h0
  have hpost : ∀ q ∈ [pingOut2], insideP unitSquare q = false := by
    intro q hq; rw [List.mem_singleton] at hq; subst hq; exact h2
  refine ⟨hpre, h1, hpost, ?_⟩
  have h := isolated_ping_zero_duration unitSquare [pingOut0] [pingOut2] pingIn1
    hpre h1 hpost
  simpa [pingIn1] using h

/-- Intervals bounded below by `lb`, each well-formed, each ending strictly
before the next one starts. -/
def RawChain : Int → List RawInterval → Prop
  | _, [] => True
  | lb, r :: rest =>
      lb ≤ r.started_at ∧ r.started_at ≤ r.ended_at
        ∧ RawChain (r.ended_at + 1) rest

/-- A right fold of `min` is a lower bound of every list element. -/
lemma foldr_min_le (l : List Int) (x : Int) (hx : x ∈ l) (a : Int) :
    l.foldr min a ≤ x := by
  induction l with
  | nil => cases hx
  | cons y l ih =>
      rw [List.foldr_cons]
      rcases List.mem_cons.mp hx with rfl | hx'
      · exact min_le_left _ _
      · exact le_trans (min_le_right _ _) (ih hx')

/-- On a strictly ascending ping stream the segmentation loop emits
well-formed, strictly separated raw intervals above any bound compatible
with its state. -/
lemma segmentLoop_rawChain (polygon : List (ℚ × ℚ)) :
    ∀ (pings : List Ping) (cv : Option CurrentVisit) (lb : Int),
    List.Pairwise (fun a b => a.ts < b.ts) pings →
    (cv = none → ∀ p ∈ pings, lb ≤ p.ts) →
    (∀ c, cv = some c →
      c.pings ≠ [] ∧ lb ≤ c.started_at
        ∧ c.started_at ≤ (c.pings.getLastD dummyPing).ts
        ∧ ∀ p ∈ pings, (c.pings.getLastD dummyPing).ts < p.ts) →
    RawChain lb (segmentLoop polygon pings cv) := by
  intro pings
  induction pings with
  | nil =>
      intro cv lb _ _ hsome
      cases cv with
      | none => trivial
      | some c =>
          obtain ⟨hne, hlb, hse, _⟩ := hsome c rfl
          have hlen : c.pings.length > 0 := List.length_pos.mpr hne
          simp only [segmentLoop, hlen, if_pos]
          exact ⟨hlb, hse, trivial⟩
  | cons p rest ih =>
      intro cv lb hsorted hnone hsome
      obtain ⟨hhead, hrest⟩ := List.pairwise_cons.mp hsorted
      cases cv with
      | none =>
          by_cases hp : insideP polygon p
          · simp only [segmentLoop, hp, if_pos]
            refine ih _ lb hrest (by simp) ?_
            intro c hc
            injection hc with hc
            subst hc
            refine ⟨by simp, hnone rfl p (by simp), by simp, ?_⟩
            intro q hq
            simpa using hhead q hq
          · simp only [segmentLoop, hp, Bool.false_eq_true, if_false]
            exact ih _ lb hrest
              (fun _ q hq => hnone rfl q (by simp [hq])) (by simp)
      | some c =>
          obtain ⟨hne, hlb, hse, hlast⟩ := hsome c rfl
          by_cases hp : insideP polygon p
          · simp only [segmentLoop, hp, if_pos]
            refine ih _ lb hrest (by simp) ?_
            intro c' hc'
            injection hc' with hc'
            subst hc'
            have hlast' :
                (((c.pings ++ [p]).getLastD dummyPing) : Ping) = p := by
              simp [List.getLastD_concat]
            refine ⟨by simp, hlb, ?_, ?_⟩
            · rw [hlast']
              exact le_of_lt (lt_of_le_of_lt hse (hlast p (by simp)))
            · intro q hq
              rw [hlast']
              exact hhead q hq
          · simp only [segmentLoop, hp, Bool.false_eq_true, if_false]
            refine ⟨hlb, hse, ?_⟩
            refine ih _ _ hrest ?_ (by simp)
            intro _ q hq
            have := hlast q (by simp [hq])
            simp only [closeVisit]
            omega

/-- The merge loop preserves well-formedness and strict separation of the
interval stream. -/
lemma mergeLoop_rawChain (G : ℚ) :
    ∀ (raws : List RawInterval) (c : RawInterval) (lb : Int),
    lb ≤ c.started_at → c.started_at ≤ c.ended_at →
    RawChain (c.ended_at + 1) raws →
    RawChain lb (mergeLoop G raws (some c)) := by
  intro raws
  induction raws with
  | nil =>
      intro c lb hlb hse _
      exact ⟨hlb, hse, trivial⟩
  | cons v rest ih =>
      intro c lb hlb hse hchain
      obtain ⟨h1, h2, h3⟩ := hchain
      by_cases hgap : gapMinutes c v < G
      · simp only [mergeLoop, hgap, if_pos]
        refine ih _ lb hlb ?_ h3
        show c.started_at ≤ v.ended_at
        omega
      · simp only [mergeLoop, hgap, if_false]
        exact ⟨hlb, hse, ih v (c.ended_at + 1) (by omega) h2 h3⟩

/-- Merging a chained raw-interval stream yields a chained visit stream. -/
lemma mergeVisits_rawChain (G : ℚ) (raws : List RawInterval) (lb : Int)
    (h : RawChain lb raws) : RawChain lb (mergeVisits G raws) := by
  cases raws with
  | nil => trivial
  | cons v rest =>
      obtain ⟨h1, h2, h3⟩ := h
      exact mergeLoop_rawChain G rest v lb h1 h2 h3

/-- A chained interval stream is time-ordered (each interval ends at or
before the next starts) and each interval is well-formed. -/
lemma rawChain_ordered (l : List RawInterval) :
    ∀ lb : Int, RawChain lb l →
    List.Chain' (fun a b => a.ended_at ≤ b.started_at) l
      ∧ ∀ r ∈ l, r.started_at ≤ r.ended_at := by
  induction l with
  | nil => exact fun _ _ => ⟨List.chain'_nil, by simp⟩
  | cons r rest ih =>
      intro lb h
      obtain ⟨_, h2, h3⟩ := h
      obtain ⟨hc, hall⟩ := ih _ h3
      constructor
      · refine List.chain'_cons'.mpr ⟨?_, hc⟩
        intro b hb
        cases rest with
        | nil => simp at hb
        | cons b' rest' =>
            simp only [List.head?_cons, Option.mem_def, Option.some.injEq] at hb
            subst hb
            have := h3.1
            omega
      · intro v hv
        rcases List.mem_cons.mp hv with rfl | hv'
        · exact h2
        · exact hall v hv'

/-- C2: for a fixed (block, tractor) pair fed an ascending, de-duplicated
ping sequence, the final visits of the pipeline are pairwise
non-overlapping and ordered by `started_at`: every visit is well-formed and
ends at or before the next one starts. -/
theorem visits_nonoverlapping_ordered (polygon : List (ℚ × ℚ))
    (pings : List Ping)
    (hsorted : List.Pairwise (fun a b => a.ts < b.ts) pings) :
    List.Chain' (fun a b => a.ended_at ≤ b.started_at)
      (runPipeline polygon MERGE_GAP_MINUTES pings)
    ∧ ∀ v ∈ runPipeline polygon MERGE_GAP_MINUTES pings,
        v.started_at ≤ v.ended_at := by
  have hlb : ∀ p ∈ pings, (pings.map Ping.ts).foldr min 0 ≤ p.ts := by
    intro p hp
    exact foldr_min_le _ _ (List.mem_map_of_mem Ping.ts hp) 0
  have hraw : RawChain ((pings.map Ping.ts).foldr min 0)
      (segmentPings polygon pings) :=
    segmentLoop_rawChain polygon pings none _ hsorted
      (fun _ => hlb) (by simp)
  have hmerged := mergeVisits_rawChain MERGE_GAP_MINUTES _ _ hraw
  exact rawChain_ordered _ _ hmerged

/-- C2 witness: two separated inside runs on the unit square produce final
visits that are time-ordered and non-overlapping. -/
theorem visits_nonoverlapping_ordered_witness :
    List.Pairwise (fun a b : Ping => a.ts < b.ts) [pingInA, pingInB, pingOutA]
    ∧ List.Chain' (fun a b => a.ended_at ≤ b.started_at)
        (runPipeline unitSquare MERGE_GAP_MINUTES [pingInA, pingInB, pingOutA])
    ∧ ∀ v ∈ runPipeline unitSquare MERGE_GAP_MINUTES [pingInA, pingInB, pingOutA],
        v.started_at ≤ v.ended_at := by
  have hs : List.Pairwise (fun a b : Ping => a.ts < b.ts)
      [pingInA, pingInB, pingOutA] := by
    norm_num [pingInA, pingInB, pingOutA]
  have h := visits_nonoverlapping_ordered unitSquare
    [pingInA, pingInB, pingOutA] hs
  exact ⟨hs, h.1, h.2⟩

/-- A visit as tracked per block (`blockVisits` in the edge function):
tractor, boundaries and ping count.  `ended_at` is optional, matching the
nullable column. -/
structure TVisit where
  tractor_id : Nat
  started_at : Int
  ended_at : Option Int
  ping_count : Nat
deriving DecidableEq

/-- The JS expression `v.ended_at || v.started_at`. -/
def effectiveEnd (v : TVisit) : Int := v.ended_at.getD v.started_at

/-- The `reduce` that selects the visit with the latest effective end,
keeping the earlier one on ties. -/
def lastVisitOf (blockVisits : List TVisit) : Option TVisit :=
  match blockVisits with
  | [] => none
  | v :: rest =>
      some (rest.foldl
        (fun latest w =>
          if effectiveEnd latest < effectiveEnd w then w else latest) v)

/-- The per-block metrics row upserted by the edge function. -/
structure BlockMetrics where
  block_id : Nat
  last_seen_at : Option Int
  last_tractor_id : Option Nat
  total_passes : Nat
  passes_24h : Nat
  passes_7d : Nat
deriving DecidableEq

/-- The metrics rollup of the edge function: `total_passes` is the number
of final visits, `passes_24h`/`passes_7d` count visits started within the
trailing 24-hour/7-day window of `now`, and the last-seen fields come from
the visit with the latest effective end. -/
def computeMetrics (now : Int) (blockId : Nat) (blockVisits : List TVisit) :
    BlockMetrics :=
  let lastVisit := lastVisitOf blockVisits
  let h24Ago : Int := now - 24 * 60 * 60 * 1000
  let d7Ago : Int := now - 7 * 24 * 60 * 60 * 1000
  { block_id := blockId
    last_seen_at := lastVisit.map effectiveEnd
    last_tractor_id := lastVisit.map TVisit.tractor_id
    total_passes := blockVisits.length
    passes_24h := (blockVisits.filter (fun v => decide (h24Ago ≤ v.started_at))).length
    passes_7d := (blockVisits.filter (fun v => decide (d7Ago ≤ v.started_at))).length }

/-- C7: the metrics rollup satisfies `total_passes = number of final
visits`, `passes_24h` counts exactly the visits with
`started_at ≥ now - 24h` (hence `passes_24h ≤ total_passes`), `passes_7d`
counts those with `started_at ≥ now - 7d`; a visit started 23 h 59 m before
`now` counts toward `passes_24h` and one started 24 h 01 m before does
not. -/
theorem metrics_consistency (now : Int) (blockId : Nat)
    (visits : List TVisit) :
    (computeMetrics now blockId visits).total_passes = visits.length
    ∧ (computeMetrics now blockId visits).passes_24h
        = (visits.filter
            (fun v => decide (now - 24 * 60 * 60 * 1000 ≤ v.started_at))).length
    ∧ (computeMetrics now blockId visits).passes_7d
        = (visits.filter
            (fun v => decide (now - 7 * 24 * 60 * 60 * 1000 ≤ v.started_at))).length
    ∧ (computeMetrics now blockId visits).passes_24h
        ≤ (computeMetrics now blockId visits).total_passes
    ∧ (computeMetrics now blockId
        [{ tractor_id := 0, started_at := now - (23 * 60 + 59) * 60 * 1000,
           ended_at := none, ping_count := 1 }]).passes_24h = 1
    ∧ (computeMetrics now blockId
        [{ tractor_id := 0, started_at := now - (24 * 60 + 1) * 60 * 1000,
           ended_at := none, ping_count := 1 }]).passes_24h = 0 := by
  refine ⟨rfl, rfl, rfl, ?_, ?_, ?_⟩
  · exact List.length_filter_le _ _
  · simp only [computeMetrics, List.filter_cons, decide_eq_true_eq]
    rw [if_pos (by omega)]
    simp
  · simp only [computeMetrics, List.filter_cons, decide_eq_true_eq]
    rw [if_neg (by omega)]
    simp

/-- GeoJSON values as far as `getPolygonCoordinates` inspects them: a
`Polygon` with its coordinate rings, a `Feature` wrapping an optional
geometry, or anything else (including values whose field access throws and
is caught). -/
inductive GeoJson where
  | polygon (coordinates : List (List (ℚ × ℚ)))
  | feature (geometry : Option GeoJson)
  | other

/-- The edge function's ring extractor: returns `coordinates[0]` of a
`Polygon` (directly or inside a `Feature`), and null for anything else or
when the access fails. -/
def getPolygonCoordinates : GeoJson → Option (List (ℚ × ℚ))
  | .polygon coordinates => coordinates.head?
  | .feature (some (.polygon coordinates)) => coordinates.head?
  | _ => none

/-- A block as read by the orchestrator: id and raw geometry. -/
structure BlockIn where
  id : Nat
  geometry_geojson : GeoJson

/-- The error string pushed for a block whose geometry cannot be read. -/
def errInvalidGeometry (blockId : Nat) : String :=
  "Block " ++ toString blockId ++ ": Invalid geometry"

/-- What one iteration of the orchestrator's block loop produces: the
visits replaced for the block, the metrics row upserted for it (none when
the block was skipped), and the errors recorded for it. -/
structure BlockOutcome where
  blockId : Nat
  visits : List TVisit
  metrics : Option BlockMetrics
  errors : List String

/-- One iteration of the orchestrator's block loop: an unreadable geometry
records an error and skips the block; otherwise the pipeline runs per
tractor, the visits are collected, and the metrics row is computed. -/
def processBlock (pingsByTractor : List (Nat × List Ping)) (now : Int)
    (b : BlockIn) : BlockOutcome :=
  match getPolygonCoordinates b.geometry_geojson with
  | none =>
      { blockId := b.id, visits := [], metrics := none
        errors := [errInvalidGeometry b.id] }
  | some polygon =>
      let blockVisits :=
        (pingsByTractor.map (fun tp =>
          (runPipeline polygon MERGE_GAP_MINUTES tp.2).map (fun r =>
            { tractor_id := tp.1
              started_at := r.started_at
              ended_at := some r.ended_at
              ping_count := r.ping_count : TVisit }))).flatten
      { blockId := b.id, visits := blockVisits
        metrics := some (computeMetrics now b.id blockVisits)
        errors := [] }

/-- The orchestrator's block loop: each block is processed independently;
per-block failures only contribute to that block's outcome. -/
def processBlocks (pingsByTractor : List (Nat × List Ping)) (now : Int)
    (blocks : List BlockIn) : List BlockOutcome :=
  blocks.map (processBlock pingsByTractor now)

/-- A degenerate two-vertex ring: too few vertices for a polygon. -/
def twoVertexBlock : BlockIn :=
  { id := 5, geometry_geojson := .polygon [[(0, 0), (1, 1)]] }

/-- A block whose geometry is not a polygon at all. -/
def nonPolygonBlock : BlockIn :=
  { id := 9, geometry_geojson := .other }

/-- A well-formed unit-square block. -/
def squareBlock : BlockIn :=
  { id := 2, geometry_geojson := .polygon [unitSquare] }

/-- C8 counterexample: a block whose polygon ring is degenerate (only two
vertices) is NOT rejected — `getPolygonCoordinates` still returns the ring,
no error is recorded for the block and a metrics row is still produced,
contradicting the claim that malformed/degenerate polygons (too few
vertices) abort processing for that block with a recorded error. -/
theorem orchestrator_degenerate_polygon_cex :
    getPolygonCoordinates twoVertexBlock.geometry_geojson = some [(0, 0), (1, 1)]
    ∧ (processBlock [] 0 twoVertexBlock).errors = []
    ∧ (processBlock [] 0 twoVertexBlock).metrics = some (computeMetrics 0 5 []) :=
  ⟨rfl, rfl, rfl⟩

/-- C8 (amended): precisely the blocks on which `getPolygonCoordinates`
fails (geometry that is not a Polygon or Feature-of-Polygon, or has no
ring) are skipped with an error recorded: no visits or metrics are produced
for them, and all other blocks of the batch are processed exactly as they
would be alone.  Degenerate rings (too few vertices, unclosed) are not
detected. -/
theorem orchestrator_invalid_geometry (pingsByTractor : List (Nat × List Ping))
    (now : Int) (pre : List BlockIn) (b : BlockIn) (post : List BlockIn)
    (h : getPolygonCoordinates b.geometry_geojson = none) :
    processBlocks pingsByTractor now (pre ++ b :: post)
      = processBlocks pingsByTractor now pre
        ++ { blockId := b.id, visits := [], metrics := none
             errors := [errInvalidGeometry b.id] }
          :: processBlocks pingsByTractor now post := by
  unfold processBlocks
  rw [List.map_append, List.map_cons]
  congr 1
  simp [processBlock, h]

/-- C8 witness: a batch of a valid square block followed by a non-polygon
block records one invalid-geometry error for the latter and still processes
the former. -/
theorem orchestrator_invalid_geometry_witness :
    getPolygonCoordinates nonPolygonBlock.geometry_geojson = none
    ∧ processBlocks [] 0 ([squareBlock] ++ nonPolygonBlock :: [])
        = processBlocks [] 0 [squareBlock]
          ++ { blockId := 9, visits := [], metrics := none
               errors := [errInvalidGeometry 9] } :: processBlocks [] 0 [] :=
  ⟨rfl, orchestrator_invalid_geometry [] 0 [squareBlock] nonPolygonBlock [] rfl⟩

/-- Result of a polygon difference as the hook inspects it: a single
polygon or a multipolygon split into its parts. -/
inductive DiffResult (α : Type) where
  | poly (p : α)
  | multi (parts : List α)

/-- The turf geometry operations used by `useVisitCoverage`, abstracted as
oracles over an opaque polygon type `α`.  A `none` from `bufferLine`
models a null buffer; a `none` from `intersect` models a thrown error, a
null result or a non-Polygon result (all of which leave `coveredPolygon`
null in the hook); a `none` from `difference` models a thrown error or a
null result. -/
structure GeoOps (α : Type) where
  area : α → ℚ
  lineLength : List (ℚ × ℚ) → ℚ
  bufferLine : List (ℚ × ℚ) → ℚ → Option α
  intersect : α → α → Option α
  difference : α → α → Option (DiffResult α)

/-- Implement work width in meters (`WORK_WIDTH_METERS`). -/
def WORK_WIDTH_METERS : ℚ := 6

/-- The coverage statistics computed per (visit, block) pair. -/
structure CoverageStats (α : Type) where
  averageSpeed : ℚ
  maxSpeed : ℚ
  coveragePercentage : ℚ
  coveredArea : ℚ
  totalDistance : ℚ
  missedAreas : List α

/-- Positive speeds of the ping path:
`pings.map(p => p.speed).filter(s => s !== null && s > 0)`. -/
def speedsOf (pings : List Ping) : List ℚ :=
  ((pings.map Ping.speed).filterMap id).filter (fun s => decide (0 < s))

/-- Average of the positive speeds, 0 when there are none. -/
def averageSpeedOf (pings : List Ping) : ℚ :=
  let speeds := speedsOf pings
  if speeds.length > 0 then speeds.sum / (speeds.length : ℚ) else 0

/-- Maximum of the positive speeds (`Math.max(...speeds)`), 0 when there
are none. -/
def maxSpeedOf (pings : List Ping) : ℚ :=
  let speeds := speedsOf pings
  if speeds.length > 0 then speeds.foldl max 0 else 0

/-- The lon/lat coordinate path of the pings. -/
def coordsOf (pings : List Ping) : List (ℚ × ℚ) :=
  pings.map (fun p => (p.lon, p.lat))

/-- How the hook turns a difference result into the `missedAreas` list: a
failed or null difference gives the empty list, a polygon gives one entry,
a multipolygon is split into one entry per part. -/
def missedAreasOf {α : Type} : Option (DiffResult α) → List α
  | none => []
  | some (.poly p) => [p]
  | some (.multi parts) => parts

/-- The `useVisitCoverage` computation: `none` without a block or with
fewer than 2 pings; a null buffer yields zeroed coverage; otherwise the
covered area comes from the intersection, falling back to the buffered
path's area, the percentage is clamped to 100, and the missed areas come
from the difference of the block with the covered (or buffered) polygon. -/
def useVisitCoverage {α : Type} (ops : GeoOps α) (block : Option α)
    (pings : List Ping) : Option (CoverageStats α) :=
  match block with
  | none => none
  | some blockPolygon =>
      if pings.length < 2 then none
      else
        let averageSpeed := averageSpeedOf pings
        let maxSpeed := maxSpeedOf pings
        let coordinates := coordsOf pings
        let totalDistance := ops.lineLength coordinates
        let blockArea := ops.area blockPolygon
        match ops.bufferLine coordinates (WORK_WIDTH_METERS / 2) with
        | none =>
            some { averageSpeed := averageSpeed, maxSpeed := maxSpeed
                   coveragePercentage := 0, coveredArea := 0
                   totalDistance := totalDistance, missedAreas := [] }
        | some bufferedPath =>
            let coveredPolygon := ops.intersect blockPolygon bufferedPath
            let coveredArea :=
              (match coveredPolygon with
               | some c => ops.area c
               | none => ops.area bufferedPath) / 10000
            let coveragePercentage :=
              min 100 ((coveredArea * 10000 / blockArea) * 100)
            let missedAreas :=
              missedAreasOf
                (ops.difference blockPolygon (coveredPolygon.getD bufferedPath))
            some { averageSpeed := averageSpeed, maxSpeed := maxSpeed
                   coveragePercentage := coveragePercentage
                   coveredArea := coveredArea
                   totalDistance := totalDistance, missedAreas := missedAreas }

/-- Two speedless pings used to exercise the coverage computation. -/
def twoPings : List Ping :=
  [{ ts := 0, lat := 0, lon := 0 }, { ts := 60000, lat := 1, lon := 1 }]

/-- Oracles on which the intersection fails while the difference succeeds
with a polygon. -/
def covOpsFail : GeoOps Nat :=
  { area := fun _ => 20000
    lineLength := fun _ => 0
    bufferLine := fun _ _ => some 1
    intersect := fun _ _ => none
    difference := fun _ _ => some (.poly 7) }

/-- C5 counterexample: with at least 2 pings and a failed polygon
intersection, `coveredArea` does fall back to the buffered-path area and no
error escapes, but `missedAreas` is NOT empty — the hook still runs the
difference against the buffered path, which here returns a polygon. -/
theorem coverage_failed_intersection_cex :
    covOpsFail.intersect 0 1 = none
    ∧ useVisitCoverage covOpsFail (some 0) twoPings
        = some { averageSpeed := 0, maxSpeed := 0, coveragePercentage := 100
                 coveredArea := 2, totalDistance := 0, missedAreas := [7] }
    ∧ (useVisitCoverage covOpsFail (some 0) twoPings).map
        (fun s => s.missedAreas) ≠ some [] := by
  have h : useVisitCoverage covOpsFail (some 0) twoPings
      = some { averageSpeed := 0, maxSpeed := 0, coveragePercentage := 100
               coveredArea := 2, totalDistance := 0, missedAreas := [7] } := by
    norm_num [useVisitCoverage, covOpsFail, twoPings, averageSpeedOf,
      maxSpeedOf, speedsOf, coordsOf, WORK_WIDTH_METERS, missedAreasOf,
      min_def]
  refine ⟨rfl, h, ?_⟩
  rw [h]
  simp

/-- C5 (amended): fewer than 2 pings yields no `CoverageStats` value at
all (undefined, not zero-coverage); with at least 2 pings and a failed
polygon intersection the result degrades to the buffered-path approximation
for `coveredArea` and no error reaches the caller, while `missedAreas` is
whatever the difference of the block with the buffered path yields (empty
only when that difference also fails or returns null). -/
theorem coverage_failure_semantics {α : Type} (ops : GeoOps α) (b : α)
    (pings : List Ping) (bp : α)
    (h2 : ¬ pings.length < 2)
    (hbuf : ops.bufferLine (coordsOf pings) (WORK_WIDTH_METERS / 2) = some bp)
    (hint : ops.intersect b bp = none) :
    (∀ (block : Option α) (ps : List Ping), ps.length < 2 →
        useVisitCoverage ops block ps = none)
    ∧ useVisitCoverage ops (some b) pings
        = some { averageSpeed := averageSpeedOf pings
                 maxSpeed := maxSpeedOf pings
                 coveragePercentage :=
                   min 100 ((ops.area bp / 10000 * 10000 / ops.area b) * 100)
                 coveredArea := ops.area bp / 10000
                 totalDistance := ops.lineLength (coordsOf pings)
                 missedAreas := missedAreasOf (ops.difference b bp) } := by
  constructor
  · intro block ps hps
    cases block with
    | none => rfl
    | some blockPolygon => simp [useVisitCoverage, hps]
  · simp [useVisitCoverage, h2, hbuf, hint]

/-- Oracles on which both the intersection and the difference fail. -/
def covOpsFallback : GeoOps Nat :=
  { area := fun _ => 30000
    lineLength := fun _ => 5
    bufferLine := fun _ _ => some 3
    intersect := fun _ _ => none
    difference := fun _ _ => none }

/-- C5 witness: on concrete oracles with a failing intersection, the
two-ping path gets the buffered-area fallback. -/
theorem coverage_failure_semantics_witness :
    ¬ (twoPings.length < 2)
    ∧ covOpsFallback.bufferLine (coordsOf twoPings) (WORK_WIDTH_METERS / 2)
        = some 3
    ∧ covOpsFallback.intersect 0 3 = none
    ∧ useVisitCoverage covOpsFallback (some 0) twoPings
        = some { averageSpeed := averageSpeedOf twoPings
                 maxSpeed := maxSpeedOf twoPings
                 coveragePercentage :=
                   min 100
                     ((covOpsFallback.area 3 / 10000 * 10000 / covOpsFallback.area 0)
                       * 100)
                 coveredArea := covOpsFallback.area 3 / 10000
                 totalDistance := covOpsFallback.lineLength (coordsOf twoPings)
                 missedAreas := missedAreasOf (covOpsFallback.difference 0 3) } := by
  have h2 : ¬ (twoPings.length < 2) := by norm_num [twoPings]
  exact ⟨h2, rfl, rfl,
    (coverage_failure_semantics covOpsFallback 0 twoPings 3 h2 rfl rfl).2⟩

/-- C6: for every block polygon and every accepted visit path (at least 2
pings), as long as the geometry oracle reports non-negative areas, the
computed `coveragePercentage` lies in [0, 100] — the clamp guards against
the buffered-path area exceeding the block area. -/
theorem coverage_percentage_bounds {α : Type} (ops : GeoOps α)
    (harea : ∀ p : α, 0 ≤ ops.area p) (block : Option α) (pings : List Ping)
    (s : CoverageStats α)
    (h : useVisitCoverage ops block pings = some s) :
    0 ≤ s.coveragePercentage ∧ s.coveragePercentage ≤ 100 := by
  cases block with
  | none => simp [useVisitCoverage] at h
  | some b =>
      by_cases h2 : pings.length < 2
      · simp [useVisitCoverage, h2] at h
      · rcases hbuf : ops.bufferLine (coordsOf pings) (WORK_WIDTH_METERS / 2)
          with _ | bp
        · simp [useVisitCoverage, h2, hbuf] at h
          rw [← h]
          norm_num
        · rcases hint : ops.intersect b bp with _ | c
          · simp [useVisitCoverage, h2, hbuf, hint] at h
            rw [← h]
            refine ⟨le_min (by norm_num) ?_, min_le_left _ _⟩
            exact mul_nonneg (div_nonneg (harea bp) (harea b)) (by norm_num)
          · simp [useVisitCoverage, h2, hbuf, hint] at h
            rw [← h]
            refine ⟨le_min (by norm_num) ?_, min_le_left _ _⟩
            exact mul_nonneg (div_nonneg (harea c) (harea b)) (by norm_num)

/-- Oracles whose buffered-path area equals the block area, driving the
unclamped ratio to exactly 100 %. -/
def covOpsClamp : GeoOps Nat :=
  { area := fun _ => 10000
    lineLength := fun _ => 0
    bufferLine := fun _ _ => some 2
    intersect := fun _ _ => some 4
    difference := fun _ _ => none }

/-- C6 witness: bounds hold on a concrete run whose ratio reaches the
100 % clamp. -/
theorem coverage_percentage_bounds_witness :
    (∀ p : Nat, 0 ≤ covOpsClamp.area p)
    ∧ useVisitCoverage covOpsClamp (some 0) twoPings
        = some { averageSpeed := 0, maxSpeed := 0, coveragePercentage := 100
                 coveredArea := 1, totalDistance := 0, missedAreas := [] }
    ∧ 0 ≤ ({ averageSpeed := 0, maxSpeed := 0, coveragePercentage := 100
             coveredArea := 1, totalDistance := 0,
             missedAreas := [] } : CoverageStats Nat).coveragePercentage
    ∧ ({ averageSpeed := 0, maxSpeed := 0, coveragePercentage := 100
         coveredArea := 1, totalDistance := 0,
         missedAreas := [] } : CoverageStats Nat).coveragePercentage ≤ 100 := by
  have harea : ∀ p : Nat, 0 ≤ covOpsClamp.area p := fun _ => by
    norm_num [covOpsClamp]
  have heval : useVisitCoverage covOpsClamp (some 0) twoPings
      = some { averageSpeed := 0, maxSpeed := 0, coveragePercentage := 100
               coveredArea := 1, totalDistance := 0, missedAreas := [] } := by
    norm_num [useVisitCoverage, covOpsClamp, twoPings, averageSpeedOf,
      maxSpeedOf, speedsOf, coordsOf, WORK_WIDTH_METERS, missedAreasOf,
      min_def]
  have h := coverage_percentage_bounds covOpsClamp harea (some 0) twoPings _
    heval
  exact ⟨harea, heval, h.1, h.2⟩

end FarmPatrol
